import Mathlib

/-!
A shallow embedding of the fraud-detector CLI's core (src/main.go): the data
model (`Transaction`, `FraudResult`, `Config`), the rule engine
(`processBatch`), the partitioner and batch scheduler (`detectFraud`), and
theorems settling the specification's claims about them.

Modelling conventions:
* Go `float64` amounts are modelled as `ℚ`.  The program performs no
  arithmetic on amounts, only order comparisons (which agree with the real
  order on the float values) and `%.2f` formatting.
* Go `time.Time` timestamps and `time.Duration` values are modelled as `ℤ`
  (nanoseconds); `Time.Sub` is integer subtraction.
* Reason strings are built by `fmt.Sprintf` from three fixed format strings;
  we represent the chosen format string together with its arguments as the
  inductive `Reason`, and `Reason.render` produces the final text.
* The goroutine fan-out in `detectFraud` appends each batch's results under a
  mutex in scheduler-dependent completion order; `detectFraud` models the
  canonical batch-order interleaving and `batchOutputs` exposes the per-batch
  outputs so that arbitrary completion orders are quantified over explicitly.
-/

/-- Struct `Transaction` from src/main.go: ID, Amount, Timestamp, AccountID, Merchant.
Amount is `ℚ` (for `float64`), Timestamp is `ℤ` nanoseconds (for `time.Time`). -/
structure Transaction where
  ID : String
  Amount : ℚ
  Timestamp : ℤ
  AccountID : String
  Merchant : String
deriving DecidableEq, Repr

/-- The reason text of a `FraudResult`, represented as the format string the
source selects together with the `Sprintf` arguments:
* `highAmount a` stands for `fmt.Sprintf("High amount: $%.2f", a)`;
* `rapidBefore d a` stands for
  `fmt.Sprintf("Rapid transaction: %v later with $%.2f", d, a)` (attached to
  the earlier transaction of a pair, `d` the time difference, `a` the later
  transaction's amount);
* `rapidAfter a d` stands for
  `fmt.Sprintf("Rapid transaction: following $%.2f after %v", a, d)` (attached
  to the later transaction, `a` the earlier transaction's amount).
`Reason.render` below produces the concrete text. -/
inductive Reason where
  | highAmount (amount : ℚ)
  | rapidBefore (timeDiff : ℤ) (nextAmount : ℚ)
  | rapidAfter (prevAmount : ℚ) (timeDiff : ℤ)
deriving DecidableEq, Repr

/-- Struct `FraudResult` from src/main.go: a transaction paired with a reason. -/
structure FraudResult where
  Transaction : Transaction
  Reason : Reason
deriving DecidableEq, Repr

/-- Struct `Config` from src/main.go.  `TimeWindow` is `ℤ` nanoseconds. -/
structure Config where
  HighAmountThreshold : ℚ
  TimeWindow : ℤ
  OutputFile : String
deriving DecidableEq, Repr

/-- The absolute value of `q`, in cents, rounded to the nearest integer with
ties to even — the rounding Go's `%.2f` verb applies to the (exact) value of a
`float64`.  (On `ℚ` the tie case is reachable, e.g. `0.125`; on the binary
floats the source actually formats, ties round to even as well, so this is the
faithful choice.)  Computed on `Rat.num`/`Rat.den` (the fraction
`(100·|q.num|) / q.den` is exactly `100·|q|`) so it evaluates by `decide`. -/
def centsAbs (q : ℚ) : ℕ :=
  let n : ℕ := q.num.natAbs * 100
  let d : ℕ := q.den
  let quot := n / d
  let rem := n % d
  if 2 * rem < d then quot
  else if d < 2 * rem then quot + 1
  else if quot % 2 = 0 then quot else quot + 1

/-- Go's `%.2f` formatting of an amount: optional minus sign, integral part,
a dot, and exactly two fractional digits. -/
def fmtF2 (q : ℚ) : String :=
  let c := centsAbs q
  let sign := if q < 0 then "-" else ""
  sign ++ toString (c / 100) ++ "." ++ (if c % 100 < 10 then "0" else "") ++ toString (c % 100)

/-- The fractional-digit pass of Go `time.Duration.String` (`fmtFrac`): renders
the low `prec` digits of `v` as a decimal fraction with trailing zeros (and, if
all are zero, the decimal point) omitted; returns the fraction text and
`v / 10^prec`.  Digits are consumed least-significant first and prepended. -/
def fmtFracAux : ℕ → ℕ → Bool → List Char → List Char × ℕ
  | 0, v, pr, acc => (if pr then '.' :: acc else acc, v)
  | i + 1, v, pr, acc =>
    let digit := v % 10
    let pr := pr || decide (digit ≠ 0)
    let acc := if pr then Char.ofNat (digit + 48) :: acc else acc
    fmtFracAux i (v / 10) pr acc

/-- Wrapper for `fmtFracAux`: fraction string and remaining value. -/
def fmtFrac (prec : ℕ) (v : ℕ) : String × ℕ :=
  let p := fmtFracAux prec v false []
  (String.mk p.1, p.2)

/-- Go `time.Duration.String`, the `%v` rendering of a duration in
nanoseconds: sub-second durations use `ns`/`µs`/`ms` units; otherwise seconds
with optional fraction, then minutes and hours when nonzero; a leading `-` for
negative durations; `0s` for zero. -/
def goDurationString (d : ℤ) : String :=
  let u : ℕ := d.natAbs
  let core :=
    if u < 1000000000 then
      if u = 0 then "0s"
      else
        let pu : ℕ × String :=
          if u < 1000 then (0, "ns")
          else if u < 1000000 then (3, "µs")
          else (6, "ms")
        let f := fmtFrac pu.1 u
        toString f.2 ++ f.1 ++ pu.2
    else
      let f := fmtFrac 9 u
      let secs := f.2
      let sPart := toString (secs % 60) ++ f.1 ++ "s"
      let mins := secs / 60
      if mins = 0 then sPart
      else
        let mPart := toString (mins % 60) ++ "m" ++ sPart
        let hours := mins / 60
        if hours = 0 then mPart else toString hours ++ "h" ++ mPart
  if d < 0 then "-" ++ core else core

/-- The reason text exactly as the source's `fmt.Sprintf` calls produce it. -/
def Reason.render : Reason → String
  | .highAmount a => "High amount: $" ++ fmtF2 a
  | .rapidBefore d a => "Rapid transaction: " ++ goDurationString d ++ " later with $" ++ fmtF2 a
  | .rapidAfter a d => "Rapid transaction: following $" ++ fmtF2 a ++ " after " ++ goDurationString d

/-- Holds exactly on High Amount reasons (Rule A). -/
def Reason.isHigh : Reason → Bool
  | .highAmount _ => true
  | _ => false

/-- Holds exactly on rapid-succession reasons (Rule B, either side of a pair). -/
def Reason.isRapid : Reason → Bool
  | .highAmount _ => false
  | _ => true

/-- One iteration of the inner `j` loop of `processBatch` (src/main.go):
skip when the accounts differ (`continue`); otherwise compute
`timeDiff := nextTx.Timestamp.Sub(tx.Timestamp)` and, when
`timeDiff < config.TimeWindow && timeDiff > 0`, append the two rapid-succession
results to the accumulator. -/
def innerStep (config : Config) (tx : Transaction) (acc : List FraudResult)
    (nextTx : Transaction) : List FraudResult :=
  if nextTx.AccountID ≠ tx.AccountID then acc
  else
    let timeDiff := nextTx.Timestamp - tx.Timestamp
    if timeDiff < config.TimeWindow ∧ timeDiff > 0 then
      acc ++ [⟨tx, .rapidBefore timeDiff nextTx.Amount⟩,
              ⟨nextTx, .rapidAfter tx.Amount timeDiff⟩]
    else acc

/-- The outer `for i, tx := range batch` loop of `processBatch`, with the
running `batchResults` accumulator made explicit.  For each `tx`: Rule 1
appends a High Amount result when `tx.Amount > config.HighAmountThreshold`;
Rule 2 runs the inner loop over the remaining transactions `batch[i+1:]`. -/
def processBatchAux (config : Config) : List Transaction → List FraudResult → List FraudResult
  | [], acc => acc
  | tx :: rest, acc =>
    let acc1 := if tx.Amount > config.HighAmountThreshold
      then acc ++ [⟨tx, .highAmount tx.Amount⟩] else acc
    let acc2 := rest.foldl (innerStep config tx) acc1
    processBatchAux config rest acc2

/-- Function `processBatch` from src/main.go: runs both rules over one batch, starting
from an empty `batchResults` list. -/
def processBatch (batch : List Transaction) (config : Config) : List FraudResult :=
  processBatchAux config batch []

/-- The batch computation of `detectFraud` (src/main.go), generalised over the
batch size that the source fixes at `100`:
`batches := len/batchSize` plus one when `len % batchSize != 0`, and batch `i`
is the slice `transactions[i*batchSize : min((i+1)*batchSize, len)]`, i.e.
`(transactions.drop (i*batchSize)).take batchSize`.  (For `batchSize = 0` the
Go arithmetic would divide by zero; every claim assumes a positive size.) -/
def numBatches (batchSize L : ℕ) : ℕ :=
  L / batchSize + (if L % batchSize = 0 then 0 else 1)

/-- The slicing loop of `detectFraud`, with `numBatches` as the batch count:
batch `i` is `transactions[i*batchSize : min((i+1)*batchSize, len)]`. -/
def partitionTx (batchSize : ℕ) (transactions : List Transaction) : List (List Transaction) :=
  (List.range (numBatches batchSize transactions.length)).map
    (fun i => (transactions.drop (i * batchSize)).take batchSize)

/-- The per-batch outputs of `detectFraud`: each goroutine computes
`processBatch(batch, config)` for its slice. -/
def batchOutputs (transactions : List Transaction) (config : Config) : List (List FraudResult) :=
  (partitionTx 100 transactions).map (fun batch => processBatch batch config)

/-- Function `detectFraud` from src/main.go with the hard-coded `batchSize := 100`:
partition, run every batch, and merge the per-batch result lists.  The
goroutines append their lists under a mutex in completion order; this
definition fixes the canonical batch-index order, and the scheduler theorems
quantify over arbitrary completion orders via `batchOutputs`. -/
def detectFraud (transactions : List Transaction) (config : Config) : List FraudResult :=
  (batchOutputs transactions config).flatten

/-! ### Structured (specification-shaped) forms of the rule engine -/

/-- Written from the spec's words (Rule B): the contribution of one ordered
pair to the rapid-succession rule — two results (earlier transaction first)
when the accounts match and `0 < diff < timeWindow`, nothing otherwise. -/
def pairResults (config : Config) (tx nextTx : Transaction) : List FraudResult :=
  let timeDiff := nextTx.Timestamp - tx.Timestamp
  if nextTx.AccountID = tx.AccountID ∧ 0 < timeDiff ∧ timeDiff < config.TimeWindow then
    [⟨tx, .rapidBefore timeDiff nextTx.Amount⟩,
     ⟨nextTx, .rapidAfter tx.Amount timeDiff⟩]
  else []

/-- Written from the spec's words (Rule A): one High Amount result when the
amount strictly exceeds the threshold, none otherwise. -/
def highResults (config : Config) (tx : Transaction) : List FraudResult :=
  if tx.Amount > config.HighAmountThreshold then [⟨tx, .highAmount tx.Amount⟩] else []

/-- The rule engine in the canonical emission order the claims describe: for
each position `i` in turn, the High Amount result for `i` (if any), then the
pair results for `(i, j)` in ascending `j`, then the segments of later
positions. -/
def processBatchSpec (config : Config) : List Transaction → List FraudResult
  | [] => []
  | tx :: rest =>
    highResults config tx ++ rest.flatMap (pairResults config tx) ++ processBatchSpec config rest

/-- All ordered pairs `(l[i], l[j])` with `i < j`, in lexicographic order of
`(i, j)`. -/
def orderedPairs : List Transaction → List (Transaction × Transaction)
  | [] => []
  | x :: rest => rest.map (fun y => (x, y)) ++ orderedPairs rest

/-! ### Concrete inputs for the scenario claims -/

/-- Scenario B's single transaction: amount $1500. -/
def txScenarioB : Transaction :=
  { ID := "1", Amount := 1500, Timestamp := 0, AccountID := "ACC123", Merchant := "Store A" }

/-- The default configuration: threshold $1000, window 5 minutes. -/
def configB : Config :=
  { HighAmountThreshold := 1000, TimeWindow := 300000000000, OutputFile := "" }

/-- A configuration with a zero (non-positive) time window. -/
def configZeroWindow : Config :=
  { HighAmountThreshold := 1000, TimeWindow := 0, OutputFile := "" }

/-- Scenario C's transactions: all on account "A", amounts ~0, timestamps
strictly decreasing along the sequence except that position 100 is one
nanosecond after position 99 — so `(99, 100)` is the unique qualifying
rapid pair, and it crosses the batch boundary at index 100. -/
def mkBoundaryTx (i : ℕ) : Transaction :=
  { ID := toString i, Amount := 0,
    Timestamp := if i = 100 then -(99 * 1000) + 1 else -((i : ℤ) * 1000),
    AccountID := "A", Merchant := "M" }

/-- The 150-transaction input of Scenario C. -/
def boundaryTxs : List Transaction := (List.range 150).map mkBoundaryTx

/-- Scenario C's configuration: a window of 5 (units irrelevant) that the
boundary pair's 1-unit gap qualifies under. -/
def boundaryConfig : Config :=
  { HighAmountThreshold := 1000000, TimeWindow := 5, OutputFile := "" }

/-- A small three-transaction input used by witnesses. -/
def witnessTxs : List Transaction :=
  [{ ID := "1", Amount := 50, Timestamp := 0, AccountID := "ACC123", Merchant := "Store A" },
   { ID := "2", Amount := 60, Timestamp := 120000000000, AccountID := "ACC123", Merchant := "Store B" },
   { ID := "3", Amount := 2000, Timestamp := 999000000000, AccountID := "ACC999", Merchant := "Store C" }]

/-- One hundred copies of the Scenario B transaction: a whole batch. -/
def hundredTxs : List Transaction := List.replicate 100 txScenarioB

/-- Boolean check that consecutive timestamps strictly decrease — an
executable certificate (linear, kernel-evaluable) that a concrete list has no
chronologically increasing pair at all. -/
def chainDesc : List Transaction → Bool
  | [] => true
  | [_] => true
  | t :: u :: rest => decide (u.Timestamp < t.Timestamp) && chainDesc (u :: rest)

/-! ### The loop-with-accumulator engine equals its structured form -/

/-- One inner-loop iteration appends exactly the pair's contribution. -/
theorem innerStep_eq (config : Config) (tx acc nextTx) :
    innerStep config tx acc nextTx = acc ++ pairResults config tx nextTx := by
  unfold innerStep pairResults
  by_cases hA : nextTx.AccountID = tx.AccountID
  · simp only [hA, ne_eq, not_true_eq_false, if_false, true_and]
    by_cases h1 : nextTx.Timestamp - tx.Timestamp < config.TimeWindow ∧
        nextTx.Timestamp - tx.Timestamp > 0
    · rw [if_pos h1, if_pos ⟨h1.2, h1.1⟩]
    · rw [if_neg h1, if_neg (fun h => h1 ⟨h.2, h.1⟩), List.append_nil]
  · simp [hA]

/-- The inner `j` loop accumulates the pair contributions of every later
transaction, in position order. -/
theorem foldl_innerStep (config : Config) (tx : Transaction) :
    ∀ (rest : List Transaction) (acc : List FraudResult),
      rest.foldl (innerStep config tx) acc = acc ++ rest.flatMap (pairResults config tx)
  | [], acc => by simp
  | nextTx :: rest, acc => by
    rw [List.foldl_cons, foldl_innerStep config tx rest, innerStep_eq]
    simp

/-- The outer loop accumulates `processBatchSpec` after whatever is already in
the accumulator. -/
theorem processBatchAux_eq (config : Config) :
    ∀ (l : List Transaction) (acc : List FraudResult),
      processBatchAux config l acc = acc ++ processBatchSpec config l
  | [], acc => by simp [processBatchAux, processBatchSpec]
  | tx :: rest, acc => by
    simp only [processBatchAux, processBatchSpec]
    rw [foldl_innerStep, processBatchAux_eq config rest]
    by_cases h : tx.Amount > config.HighAmountThreshold
    · simp [highResults, if_pos h]
    · simp [highResults, if_neg h]

/-- Theorem: `processBatch` computes exactly the structured emission order. -/
theorem processBatch_eq_spec (batch : List Transaction) (config : Config) :
    processBatch batch config = processBatchSpec config batch := by
  rw [processBatch, processBatchAux_eq, List.nil_append]

/-! ### Classifying the emitted results -/

/-- Every result of `highResults` has a High Amount reason. -/
theorem highResults_isHigh (config : Config) (tx : Transaction) :
    ∀ r ∈ highResults config tx, r.Reason.isHigh = true := by
  intro r hr
  simp only [highResults] at hr
  split at hr
  · simp only [List.mem_singleton] at hr
    subst hr
    rfl
  · cases hr

/-- Every result of `pairResults` has a rapid-succession reason. -/
theorem pairResults_isRapid (config : Config) (tx nextTx : Transaction) :
    ∀ r ∈ pairResults config tx nextTx, r.Reason.isRapid = true := by
  intro r hr
  simp only [pairResults] at hr
  split at hr
  · simp only [List.mem_cons, List.not_mem_nil, or_false] at hr
    rcases hr with h | h <;> (subst h; rfl)
  · cases hr

/-- A rapid reason is not a high reason. -/
theorem isHigh_eq_false_of_isRapid {r : Reason} (h : r.isRapid = true) : r.isHigh = false := by
  cases r <;> simp_all [Reason.isRapid, Reason.isHigh]

/-- A high reason is not a rapid reason. -/
theorem isRapid_eq_false_of_isHigh {r : Reason} (h : r.isHigh = true) : r.isRapid = false := by
  cases r <;> simp_all [Reason.isRapid, Reason.isHigh]

/-- The rapid-succession results of the structured engine are the ordered-pair
contributions, in lexicographic pair order. -/
theorem filter_isRapid_spec (config : Config) :
    ∀ batch : List Transaction,
      (processBatchSpec config batch).filter (fun r => r.Reason.isRapid)
        = (orderedPairs batch).flatMap (fun p => pairResults config p.1 p.2)
  | [] => by simp [processBatchSpec, orderedPairs]
  | tx :: rest => by
    unfold processBatchSpec orderedPairs
    rw [List.filter_append, List.filter_append, filter_isRapid_spec config rest,
      List.flatMap_append, List.flatMap_map]
    have h1 : (highResults config tx).filter (fun r => r.Reason.isRapid) = [] := by
      rw [List.filter_eq_nil_iff]
      intro a ha
      simp [isRapid_eq_false_of_isHigh (highResults_isHigh config tx a ha)]
    have h2 : (rest.flatMap (pairResults config tx)).filter (fun r => r.Reason.isRapid)
        = rest.flatMap (pairResults config tx) := by
      rw [List.filter_eq_self]
      intro a ha
      rcases List.mem_flatMap.mp ha with ⟨y, _, hy⟩
      exact pairResults_isRapid config tx y a hy
    rw [h1, h2, List.nil_append]

/-- The High Amount results of the structured engine are one result per
transaction strictly above the threshold, in batch order. -/
theorem filter_isHigh_spec (config : Config) :
    ∀ batch : List Transaction,
      (processBatchSpec config batch).filter (fun r => r.Reason.isHigh)
        = (batch.filter (fun t => t.Amount > config.HighAmountThreshold)).map
            (fun t => ⟨t, .highAmount t.Amount⟩)
  | [] => by simp [processBatchSpec]
  | tx :: rest => by
    unfold processBatchSpec
    rw [List.filter_append, List.filter_append, filter_isHigh_spec config rest]
    have h2 : (rest.flatMap (pairResults config tx)).filter (fun r => r.Reason.isHigh) = [] := by
      rw [List.filter_eq_nil_iff]
      intro a ha
      rcases List.mem_flatMap.mp ha with ⟨y, _, hy⟩
      simp [isHigh_eq_false_of_isRapid (pairResults_isRapid config tx y a hy)]
    rw [h2, List.filter_cons]
    by_cases h : tx.Amount > config.HighAmountThreshold
    · simp [highResults, h, Reason.isHigh]
    · simp [highResults, h]

/-! ### Partitioner lemmas -/

/-- An empty input yields zero batches. -/
theorem partitionTx_nil (B : ℕ) : partitionTx B [] = [] := by
  simp [partitionTx, numBatches]

/-- Peeling one batch off a nonempty input: the batch count decreases by one
when `B` elements are removed. -/
theorem numBatches_succ {B L : ℕ} (hB : 0 < B) (hL : 0 < L) :
    numBatches B L = numBatches B (L - B) + 1 := by
  unfold numBatches
  rcases le_or_lt B L with h | h
  · have e : L - B + B = L := Nat.sub_add_cancel h
    have d : L / B = (L - B) / B + 1 := by
      conv_lhs => rw [← e]
      rw [Nat.add_div_right _ hB]
    have m : L % B = (L - B) % B := by
      conv_lhs => rw [← e]
      rw [Nat.add_mod_right]
    rw [d, m]
    split_ifs <;> omega
  · have e : L - B = 0 := by omega
    rw [e, Nat.div_eq_of_lt h, Nat.mod_eq_of_lt h]
    have : ¬ L = 0 := by omega
    simp [this]

/-- The partitioner peels off the first `B` elements as the first batch. -/
theorem partitionTx_cons {B : ℕ} (hB : 0 < B) {txs : List Transaction} (h : txs ≠ []) :
    partitionTx B txs = txs.take B :: partitionTx B (txs.drop B) := by
  have hL : 0 < txs.length := List.length_pos.mpr h
  unfold partitionTx
  rw [List.length_drop, numBatches_succ hB hL, List.range_succ_eq_map, List.map_cons,
    List.map_map]
  refine congrArg₂ _ (by simp) (List.map_congr_left ?_)
  intro i _
  simp only [Function.comp_apply, List.drop_drop]
  have e : i.succ * B = B + i * B := by
    rw [Nat.succ_mul, Nat.add_comm]
  rw [e]

/-- Concatenating the batches in order reconstructs the input sequence. -/
theorem partitionTx_flatten {B : ℕ} (hB : 0 < B) (txs : List Transaction) :
    (partitionTx B txs).flatten = txs := by
  have H : ∀ (n : ℕ) (l : List Transaction), l.length ≤ n → (partitionTx B l).flatten = l := by
    intro n
    induction n with
    | zero =>
      intro l h
      have : l = [] := List.eq_nil_of_length_eq_zero (by omega)
      rw [this, partitionTx_nil]
      rfl
    | succ n ih =>
      intro l h
      rcases eq_or_ne l [] with rfl | hne
      · rw [partitionTx_nil]; rfl
      · have hL : 0 < l.length := List.length_pos.mpr hne
        rw [partitionTx_cons hB hne, List.flatten_cons, ih (l.drop B) ?_,
          List.take_append_drop]
        rw [List.length_drop]
        omega
  exact H txs.length txs le_rfl

/-- The batch count is the ceiling `⌈L/B⌉ = (L + B - 1) / B`. -/
theorem numBatches_eq_ceil {B : ℕ} (hB : 0 < B) (L : ℕ) :
    numBatches B L = (L + B - 1) / B := by
  obtain ⟨q, r, hr, rfl⟩ : ∃ q r, r < B ∧ L = B * q + r :=
    ⟨L / B, L % B, Nat.mod_lt _ hB, (Nat.div_add_mod L B).symm⟩
  unfold numBatches
  have hdiv : (B * q + r) / B = q := by
    rw [Nat.mul_add_div hB, Nat.div_eq_of_lt hr, Nat.add_zero]
  have hmod : (B * q + r) % B = r := by
    rw [Nat.mul_add_mod, Nat.mod_eq_of_lt hr]
  have e : B * q + r + B - 1 = B * q + (r + B - 1) := by
    rw [Nat.add_assoc, Nat.add_sub_assoc (by omega)]
  rw [hdiv, hmod, e, Nat.mul_add_div hB]
  rcases Nat.eq_zero_or_pos r with rfl | hrpos
  · have h2 : (B - 1) / B = 0 := Nat.div_eq_of_lt (by omega)
    simp [h2]
  · have e2 : r + B - 1 = (r - 1) + B := by omega
    rw [e2, Nat.add_div_right _ hB, Nat.div_eq_of_lt (by omega)]
    have : ¬ r = 0 := by omega
    simp [this]

/-- Every batch before the last has exactly `B` elements. -/
theorem partitionTx_dropLast_length {B : ℕ} (hB : 0 < B) (txs : List Transaction) :
    ∀ b ∈ (partitionTx B txs).dropLast, b.length = B := by
  intro b hb
  unfold partitionTx at hb
  cases hnm : numBatches B txs.length with
  | zero =>
    rw [hnm] at hb
    cases hb
  | succ m =>
    rw [hnm, List.range_succ, List.map_append, List.map_cons, List.map_nil,
      List.dropLast_concat] at hb
    rcases List.mem_map.mp hb with ⟨i, hi, rfl⟩
    have him : i < m := List.mem_range.mp hi
    have hceil : m + 1 = (txs.length + B - 1) / B :=
      hnm.symm.trans (numBatches_eq_ceil hB txs.length)
    have hle : (m + 1) * B ≤ txs.length + B - 1 := by
      rw [hceil]
      exact Nat.div_mul_le_self _ _
    have hexp : (m + 1) * B = m * B + B := by ring
    have hiB : i * B + B ≤ m * B := by
      have h1 : (i + 1) * B ≤ m * B := Nat.mul_le_mul_right B (by omega)
      have h2 : (i + 1) * B = i * B + B := by ring
      omega
    have hbound : i * B + B ≤ txs.length := by
      have hB1 : 1 ≤ B := hB
      omega
    rw [List.length_take, List.length_drop]
    omega

/-- When the first part's length is a multiple of `B`, partitioning a
concatenation partitions the parts independently. -/
theorem partitionTx_append {B : ℕ} (hB : 0 < B) (txs rest : List Transaction)
    (hdvd : B ∣ txs.length) :
    partitionTx B (txs ++ rest) = partitionTx B txs ++ partitionTx B rest := by
  have H : ∀ (n : ℕ) (l : List Transaction), l.length ≤ n → B ∣ l.length →
      partitionTx B (l ++ rest) = partitionTx B l ++ partitionTx B rest := by
    intro n
    induction n with
    | zero =>
      intro l h _
      have : l = [] := List.eq_nil_of_length_eq_zero (by omega)
      rw [this, partitionTx_nil, List.nil_append, List.nil_append]
    | succ n ih =>
      intro l h hd
      rcases eq_or_ne l [] with rfl | hne
      · rw [partitionTx_nil, List.nil_append, List.nil_append]
      · have hL : 0 < l.length := List.length_pos.mpr hne
        have hBL : B ≤ l.length := Nat.le_of_dvd hL hd
        have hlr : l ++ rest ≠ [] := by
          intro hc
          exact hne (List.append_eq_nil.mp hc).1
        rw [partitionTx_cons hB hlr, partitionTx_cons hB hne,
          List.take_append_of_le_length hBL, List.drop_append_of_le_length hBL,
          List.cons_append]
        refine congrArg _ (ih (l.drop B) ?_ ?_)
        · rw [List.length_drop]; omega
        · rw [List.length_drop]
          exact Nat.dvd_sub' hd dvd_rfl
  exact H txs.length txs le_rfl hdvd

/-- When the first part's length is a multiple of the batch size 100, a run
over the concatenation is the two independent runs in sequence: the two parts
never interact. -/
theorem detectFraud_append (txs rest : List Transaction) (config : Config)
    (hdvd : 100 ∣ txs.length) :
    detectFraud (txs ++ rest) config = detectFraud txs config ++ detectFraud rest config := by
  unfold detectFraud batchOutputs
  rw [partitionTx_append (by norm_num) txs rest hdvd, List.map_append, List.flatten_append]

/-! ### Window and membership lemmas -/

/-- A pair whose later position is not strictly later in time contributes
nothing. -/
theorem pairResults_eq_nil_of_nonpos {config : Config} {tx nextTx : Transaction}
    (h : nextTx.Timestamp ≤ tx.Timestamp) : pairResults config tx nextTx = [] := by
  unfold pairResults
  rw [if_neg]
  intro hc
  omega

/-- With a non-positive time window, no pair contributes: `0 < diff < window`
is unsatisfiable. -/
theorem pairResults_eq_nil_of_nonpos_window {config : Config} (hw : config.TimeWindow ≤ 0)
    (tx nextTx : Transaction) : pairResults config tx nextTx = [] := by
  unfold pairResults
  rw [if_neg]
  intro hc
  omega

/-- A batch with no high amount and no contributing pair yields no result. -/
theorem processBatchSpec_eq_nil {config : Config} :
    ∀ {l : List Transaction}, (∀ tx ∈ l, ¬ tx.Amount > config.HighAmountThreshold) →
      l.Pairwise (fun t u => pairResults config t u = []) → processBatchSpec config l = []
  | [], _, _ => rfl
  | tx :: rest, hamt, hpw => by
    rw [processBatchSpec]
    have h1 : highResults config tx = [] := by
      unfold highResults
      rw [if_neg (hamt tx (List.mem_cons_self tx rest))]
    have h2 : rest.flatMap (pairResults config tx) = [] :=
      List.flatMap_eq_nil_iff.mpr fun u hu => (List.pairwise_cons.mp hpw).1 u hu
    have h3 : processBatchSpec config rest = []  :=
      processBatchSpec_eq_nil (fun u hu => hamt u (List.mem_cons_of_mem tx hu))
        (List.pairwise_cons.mp hpw).2
    rw [h1, h2, h3]
    rfl

/-- Every result the structured engine emits carries a transaction of the
batch. -/
theorem mem_pairResults_transaction {config : Config} {tx nextTx : Transaction}
    {r : FraudResult} (hr : r ∈ pairResults config tx nextTx) :
    r.Transaction = tx ∨ r.Transaction = nextTx := by
  simp only [pairResults] at hr
  split at hr
  · simp only [List.mem_cons, List.not_mem_nil, or_false] at hr
    rcases hr with h | h <;> subst h
    · exact Or.inl rfl
    · exact Or.inr rfl
  · cases hr

/-- Every result of a batch run names a transaction of that batch. -/
theorem mem_processBatchSpec_transaction {config : Config} :
    ∀ {l : List Transaction} {r : FraudResult}, r ∈ processBatchSpec config l →
      r.Transaction ∈ l
  | [], r, hr => by cases hr
  | tx :: rest, r, hr => by
    rw [processBatchSpec, List.append_assoc] at hr
    rcases List.mem_append.mp hr with h | h
    · rcases (highResults_isHigh config tx r h) with _
      have : r ∈ highResults config tx := h
      simp only [highResults] at this
      split at this
      · simp only [List.mem_singleton] at this
        rw [this]
        exact List.mem_cons_self tx rest
      · cases this
    · rcases List.mem_append.mp h with h2 | h2
      · rcases List.mem_flatMap.mp h2 with ⟨u, hu, hru⟩
        rcases mem_pairResults_transaction hru with h3 | h3
        · rw [h3]; exact List.mem_cons_self tx rest
        · rw [h3]; exact List.mem_cons_of_mem tx hu
      · exact List.mem_cons_of_mem tx (mem_processBatchSpec_transaction h2)

/-- With a non-positive window, a batch yields exactly its High Amount
results, in batch order. -/
theorem processBatchSpec_nonpos_window {config : Config} (hw : config.TimeWindow ≤ 0) :
    ∀ l : List Transaction,
      processBatchSpec config l = (l.filter (fun t => t.Amount > config.HighAmountThreshold)).map
        (fun t => ⟨t, .highAmount t.Amount⟩)
  | [] => rfl
  | tx :: rest => by
    rw [processBatchSpec, List.filter_cons,
      List.flatMap_eq_nil_iff.mpr fun u _ => pairResults_eq_nil_of_nonpos_window hw tx u,
      processBatchSpec_nonpos_window hw rest]
    by_cases h : tx.Amount > config.HighAmountThreshold
    · simp [highResults, h]
    · simp [highResults, h]

/-- Merging per-batch filtered-and-mapped outputs is filtering and mapping the
merged input. -/
theorem flatten_map_filter_map (p : Transaction → Bool) (f : Transaction → FraudResult) :
    ∀ parts : List (List Transaction),
      (parts.map (fun b => (b.filter p).map f)).flatten = (parts.flatten.filter p).map f
  | [] => rfl
  | b :: parts => by
    rw [List.map_cons, List.flatten_cons, List.flatten_cons, List.filter_append,
      List.map_append, flatten_map_filter_map p f parts]

/-! ### Claim theorems -/

/-- C1: for every batch and configuration, the rapid-succession results of the
Rule Engine are exactly the per-pair contributions over all position-ordered
pairs `(i, j)`, `i < j`, in lexicographic order: a same-account pair emits
exactly two results — one for the earlier transaction, whose reason carries the
time difference and the later transaction's amount, and one for the later
transaction, whose reason carries the earlier transaction's amount and the time
difference — if and only if `0 < timestamp(j) − timestamp(i) < timeWindow`; a
difference of zero, equal to the window, or negative contributes nothing. -/
theorem claim_C1 (batch : List Transaction) (config : Config) :
    (processBatch batch config).filter (fun r => r.Reason.isRapid)
      = (orderedPairs batch).flatMap (fun p =>
          if p.2.AccountID = p.1.AccountID ∧ 0 < p.2.Timestamp - p.1.Timestamp ∧
              p.2.Timestamp - p.1.Timestamp < config.TimeWindow then
            [⟨p.1, .rapidBefore (p.2.Timestamp - p.1.Timestamp) p.2.Amount⟩,
             ⟨p.2, .rapidAfter p.1.Amount (p.2.Timestamp - p.1.Timestamp)⟩]
          else []) := by
  rw [processBatch_eq_spec, filter_isRapid_spec]
  rfl

/-- C2: the High Amount results of the Rule Engine are exactly one result per
transaction whose amount strictly exceeds the threshold (equality never
triggers), each carrying that transaction and a reason rendering the rule name
with the amount to two decimal places; in particular a single $1500
transaction against a $1000 threshold yields exactly one result, whose reason
text contains "1500.00". -/
theorem claim_C2 :
    (∀ (batch : List Transaction) (config : Config),
      (processBatch batch config).filter (fun r => r.Reason.isHigh)
        = (batch.filter (fun t => t.Amount > config.HighAmountThreshold)).map
            (fun t => ⟨t, .highAmount t.Amount⟩))
    ∧ (∀ a : ℚ, (Reason.highAmount a).render = "High amount: $" ++ fmtF2 a)
    ∧ processBatch [txScenarioB] configB = [⟨txScenarioB, .highAmount 1500⟩]
    ∧ ∃ pre post, (Reason.highAmount (1500 : ℚ)).render = pre ++ "1500.00" ++ post := by
  refine ⟨fun batch config => ?_, fun a => rfl, by decide,
    ⟨"High amount: $", "", by decide⟩⟩
  rw [processBatch_eq_spec]
  exact filter_isHigh_spec config batch

/-- C3: for a positive batch size `B` the partitioner produces exactly
`⌈L/B⌉ = (L + B − 1) / B` batches whose in-order concatenation is the input
(so the batches are contiguous, non-overlapping and cover every transaction
exactly once), every batch before the last has exactly `B` elements, an empty
input yields zero batches, and the full detection run on an empty input
returns an empty result collection. -/
theorem claim_C3 :
    (∀ (B : ℕ) (txs : List Transaction), 0 < B →
      (partitionTx B txs).length = (txs.length + B - 1) / B
      ∧ (partitionTx B txs).flatten = txs
      ∧ (∀ b ∈ (partitionTx B txs).dropLast, b.length = B)
      ∧ (txs = [] → partitionTx B txs = []))
    ∧ (∀ config : Config, detectFraud [] config = []) := by
  refine ⟨fun B txs hB => ⟨?_, partitionTx_flatten hB txs,
    partitionTx_dropLast_length hB txs, fun h => by rw [h, partitionTx_nil]⟩,
    fun config => ?_⟩
  · simp only [partitionTx, List.length_map, List.length_range]
    exact numBatches_eq_ceil hB txs.length
  · simp [detectFraud, batchOutputs, partitionTx_nil]

/-- Witness for C3 at batch size 2 and a concrete three-transaction input. -/
theorem claim_C3_witness :
    (partitionTx 2 witnessTxs).flatten = witnessTxs ∧ detectFraud [] configB = [] :=
  ⟨(claim_C3.1 2 witnessTxs (by decide)).2.1, claim_C3.2 configB⟩

/-- The claim C5 is false of the code: `detectFraud` performs no configuration
validation at all.  With a zero (non-positive) time window it does not signal
any error — its return type has no error channel, matching the Go signature —
and it produces results: on a single $1500 transaction it returns that
transaction's High Amount result. -/
theorem claim_C5_counterexample :
    configZeroWindow.TimeWindow = 0
    ∧ detectFraud [txScenarioB] configZeroWindow
        = [⟨txScenarioB, .highAmount 1500⟩] := by
  decide

/-- C5 (amended): the engine rejects no configuration: the batch size is the
hard-coded positive constant 100, and a run whose time window is non-positive
proceeds normally through partitioning and rule evaluation — each batch yields
exactly its High Amount results, never an error. -/
theorem claim_C5 (batch : List Transaction) (config : Config)
    (hw : config.TimeWindow ≤ 0) :
    processBatch batch config
      = (batch.filter (fun t => t.Amount > config.HighAmountThreshold)).map
          (fun t => ⟨t, .highAmount t.Amount⟩) := by
  rw [processBatch_eq_spec]
  exact processBatchSpec_nonpos_window hw batch

/-- Witness for the amended C5 at a concrete batch and zero window. -/
theorem claim_C5_witness :
    processBatch witnessTxs configZeroWindow
      = (witnessTxs.filter (fun t => t.Amount > configZeroWindow.HighAmountThreshold)).map
          (fun t => ⟨t, .highAmount t.Amount⟩) :=
  claim_C5 witnessTxs configZeroWindow (by decide)

/-- C6: the merged result collection is, as a multiset, independent of the
goroutines' completion order: any two completion orders (permutations of the
per-batch outputs) flatten to equal multisets, and both equal the canonical
`detectFraud` output — so the result multiset is a pure function of the input
sequence, the batch size and the configuration. -/
theorem claim_C6 (txs : List Transaction) (config : Config)
    (out1 out2 : List (List FraudResult))
    (h1 : out1.Perm (batchOutputs txs config))
    (h2 : out2.Perm (batchOutputs txs config)) :
    (out1.flatten : Multiset FraudResult) = (out2.flatten : Multiset FraudResult)
    ∧ (out1.flatten : Multiset FraudResult) = (detectFraud txs config : Multiset FraudResult) :=
  ⟨Multiset.coe_eq_coe.mpr ((h1.flatten).trans (h2.flatten).symm),
   Multiset.coe_eq_coe.mpr h1.flatten⟩

/-- Witness for C6: a reversed completion order flattens to the same multiset
as the canonical order. -/
theorem claim_C6_witness :
    ((batchOutputs witnessTxs configB).reverse.flatten : Multiset FraudResult)
      = ((batchOutputs witnessTxs configB).flatten : Multiset FraudResult) :=
  (claim_C6 witnessTxs configB (batchOutputs witnessTxs configB).reverse
    (batchOutputs witnessTxs configB) (List.reverse_perm _) (List.Perm.refl _)).1

/-- C8: every emitted FlaggedResult carries a transaction value-equal to some
element of the input sequence — the run never fabricates or alters a
transaction. -/
theorem claim_C8 (txs : List Transaction) (config : Config) (r : FraudResult)
    (hr : r ∈ detectFraud txs config) : r.Transaction ∈ txs := by
  unfold detectFraud batchOutputs at hr
  rcases List.mem_flatten.mp hr with ⟨out, hout, hro⟩
  rcases List.mem_map.mp hout with ⟨b, hb, rfl⟩
  rw [processBatch_eq_spec] at hro
  have h1 : r.Transaction ∈ b := mem_processBatchSpec_transaction hro
  have h2 : r.Transaction ∈ (partitionTx 100 txs).flatten := List.mem_flatten.mpr ⟨b, hb, h1⟩
  rw [partitionTx_flatten (by norm_num)] at h2
  exact h2

/-- Witness for C8: the result emitted for the Scenario B transaction carries
that very transaction. -/
theorem claim_C8_witness :
    (⟨txScenarioB, .highAmount 1500⟩ : FraudResult).Transaction ∈ [txScenarioB] :=
  claim_C8 [txScenarioB] configB ⟨txScenarioB, .highAmount 1500⟩ (by decide)

/-- C9: with a non-positive time window the run does not fail: it returns
exactly the High Amount results of the whole input, in order, and no
rapid-succession result, because `0 < diff < timeWindow` is unsatisfiable. -/
theorem claim_C9 (txs : List Transaction) (config : Config)
    (hw : config.TimeWindow ≤ 0) :
    detectFraud txs config
      = (txs.filter (fun t => t.Amount > config.HighAmountThreshold)).map
          (fun t => ⟨t, .highAmount t.Amount⟩) := by
  unfold detectFraud batchOutputs
  have h1 : ∀ b ∈ partitionTx 100 txs,
      processBatch b config
        = (b.filter (fun t => t.Amount > config.HighAmountThreshold)).map
            (fun t => (⟨t, .highAmount t.Amount⟩ : FraudResult)) := by
    intro b _
    rw [processBatch_eq_spec]
    exact processBatchSpec_nonpos_window hw b
  rw [List.map_congr_left h1, flatten_map_filter_map, partitionTx_flatten (by norm_num)]

/-- Witness for C9 at a concrete input and zero window. -/
theorem claim_C9_witness :
    detectFraud witnessTxs configZeroWindow
      = (witnessTxs.filter (fun t => t.Amount > configZeroWindow.HighAmountThreshold)).map
          (fun t => ⟨t, .highAmount t.Amount⟩) :=
  claim_C9 witnessTxs configZeroWindow (by decide)

/-- C10: within one batch the engine emits results in ascending order of the
earlier transaction's position: `processBatch` equals the canonical form that,
for each position `i` in turn, lists the High Amount result for `i` (if any),
then the rapid pairs `(i, j)` in ascending `j`, each qualifying pair
contributing two adjacent results with the earlier transaction's immediately
before the later transaction's. -/
theorem claim_C10 (batch : List Transaction) (config : Config) :
    processBatch batch config = processBatchSpec config batch :=
  processBatch_eq_spec batch config

/-- The partitioner splits the 150 boundary transactions into the first 100
and the remaining 50. -/
theorem boundary_partition :
    partitionTx 100 boundaryTxs = [boundaryTxs.take 100, boundaryTxs.drop 100] := by
  have hlen : boundaryTxs.length = 150 := by simp [boundaryTxs]
  have hne : boundaryTxs ≠ [] := List.length_pos.mp (by rw [hlen]; norm_num)
  have hd : (boundaryTxs.drop 100).length = 50 := by rw [List.length_drop, hlen]
  have hdne : boundaryTxs.drop 100 ≠ [] := List.length_pos.mp (by rw [hd]; norm_num)
  have h2 : partitionTx 100 (boundaryTxs.drop 100) = [boundaryTxs.drop 100] := by
    rw [partitionTx_cons (by norm_num) hdne, List.drop_drop,
      @List.drop_eq_nil_of_le _ boundaryTxs (100 + 100) (by rw [hlen]; norm_num),
      partitionTx_nil, List.take_of_length_le (by rw [hd]; norm_num)]
  rw [partitionTx_cons (by norm_num) hne, h2]

/-- No boundary transaction exceeds the threshold. -/
theorem boundary_amounts :
    ∀ tx ∈ boundaryTxs, ¬ tx.Amount > boundaryConfig.HighAmountThreshold := by
  intro tx htx
  unfold boundaryTxs at htx
  rcases List.mem_map.mp htx with ⟨i, _, rfl⟩
  norm_num [mkBoundaryTx, boundaryConfig]

/-- A passing `chainDesc` certificate yields strict time decrease for every
position-ordered pair, not just adjacent ones. -/
theorem chainDesc_pairwise :
    ∀ l : List Transaction, chainDesc l = true →
      l.Pairwise (fun t u => u.Timestamp < t.Timestamp)
  | [], _ => List.Pairwise.nil
  | [t], _ => List.pairwise_singleton _ t
  | t :: u :: rest, h => by
    rw [chainDesc, Bool.and_eq_true, decide_eq_true_eq] at h
    have h2 : (u :: rest).Pairwise (fun t u => u.Timestamp < t.Timestamp) :=
      chainDesc_pairwise (u :: rest) h.2
    refine List.Pairwise.cons ?_ h2
    intro x hx
    rcases List.mem_cons.mp hx with rfl | hx2
    · exact h.1
    · exact (List.rel_of_pairwise_cons h2 hx2).trans h.1

/-- Each of the two boundary batches is internally strictly decreasing in
time, so no within-batch pair contributes. -/
theorem boundary_pairwise_nil :
    (boundaryTxs.take 100).Pairwise (fun t u => pairResults boundaryConfig t u = [])
    ∧ (boundaryTxs.drop 100).Pairwise (fun t u => pairResults boundaryConfig t u = []) := by
  constructor
  · exact (chainDesc_pairwise _ (by decide)).imp
      (fun h => pairResults_eq_nil_of_nonpos (le_of_lt h))
  · exact (chainDesc_pairwise _ (by decide)).imp
      (fun h => pairResults_eq_nil_of_nonpos (le_of_lt h))

/-- C4: runs over batch-aligned parts never interact — when the first part's
length is a multiple of the batch size 100, detection over the concatenation
is detection over the parts independently, so a cross-batch pair is never
evaluated.  Concretely (Scenario C): the 150 boundary transactions split into
batches of 100 and 50; positions 99 and 100 hold same-account transactions one
time unit apart, within the window — a qualifying rapid pair under Rule B —
yet, because the pair crosses the batch boundary, the run returns zero
results. -/
theorem claim_C4 :
    (∀ (txs rest : List Transaction) (config : Config), 100 ∣ txs.length →
        detectFraud (txs ++ rest) config = detectFraud txs config ++ detectFraud rest config)
    ∧ boundaryTxs.length = 150
    ∧ (partitionTx 100 boundaryTxs).map List.length = [100, 50]
    ∧ boundaryTxs[99]? = some (mkBoundaryTx 99)
    ∧ boundaryTxs[100]? = some (mkBoundaryTx 100)
    ∧ (mkBoundaryTx 100).AccountID = (mkBoundaryTx 99).AccountID
    ∧ 0 < (mkBoundaryTx 100).Timestamp - (mkBoundaryTx 99).Timestamp
    ∧ (mkBoundaryTx 100).Timestamp - (mkBoundaryTx 99).Timestamp < boundaryConfig.TimeWindow
    ∧ pairResults boundaryConfig (mkBoundaryTx 99) (mkBoundaryTx 100) ≠ []
    ∧ detectFraud boundaryTxs boundaryConfig = [] := by
  have hlen : boundaryTxs.length = 150 := by simp [boundaryTxs]
  refine ⟨detectFraud_append, hlen, ?_, ?_, ?_, by decide, by decide, by decide, by decide, ?_⟩
  · rw [boundary_partition]
    simp [List.length_take, List.length_drop, hlen]
  · unfold boundaryTxs
    rw [List.getElem?_map, List.getElem?_range (by norm_num)]
    rfl
  · unfold boundaryTxs
    rw [List.getElem?_map, List.getElem?_range (by norm_num)]
    rfl
  · unfold detectFraud batchOutputs
    rw [boundary_partition, List.map_cons, List.map_cons, List.map_nil,
      processBatch_eq_spec, processBatch_eq_spec,
      processBatchSpec_eq_nil
        (fun tx htx => boundary_amounts tx (List.mem_of_mem_take htx))
        boundary_pairwise_nil.1,
      processBatchSpec_eq_nil
        (fun tx htx => boundary_amounts tx (List.mem_of_mem_drop htx))
        boundary_pairwise_nil.2]
    rfl

/-- Witness for C4's universal part: a whole batch of 100 followed by one more
transaction is processed as two independent runs. -/
theorem claim_C4_witness :
    detectFraud (hundredTxs ++ [txScenarioB]) configB
      = detectFraud hundredTxs configB ++ detectFraud [txScenarioB] configB :=
  claim_C4.1 hundredTxs [txScenarioB] configB (by decide)
